import Mathlib

set_option maxHeartbeats 1000000

/-!
Verification development for the cs2-dumper core (src/src/process.cpp and
src/src/main.cpp): the pattern compiler, the signature scan loop, the
snapshot-iteration lookups, session attachment, export resolution,
string reads and RIP-relative resolution, embedded shallowly over lists
of bytes (`Nat`, each < 256 where it matters) and characters.
-/

/-- Value of an ASCII code point as a base-16 digit, exactly the digit set
accepted by `std::from_chars(..., 16)`: `0`-`9`, `a`-`f`, `A`-`F`. -/
def hexDigitVal (n : Nat) : Option Nat :=
  if 48 ≤ n ∧ n ≤ 57 then some (n - 48)
  else if 97 ≤ n ∧ n ≤ 102 then some (n - 87)
  else if 65 ≤ n ∧ n ≤ 70 then some (n - 55)
  else none

/-- Result of `std::from_chars(p + i, p + i + 2, value, 16)` (process.cpp line 64)
on the two-character window `[c0, c1]` with `value : int32_t`.  `from_chars`
parses an optional minus sign (for a signed target type) followed by as many
hex digits as fit in the window, and succeeds as soon as at least one digit
was consumed — so a single leading digit succeeds even when the second
character is not a digit. -/
def from_chars2 (c0 c1 : Char) : Option Int :=
  match hexDigitVal c0.toNat with
  | some h0 =>
    match hexDigitVal c1.toNat with
    | some h1 => some (Int.ofNat (16 * h0 + h1))
    | none => some (Int.ofNat h0)
  | none =>
    if c0 = '-' then (hexDigitVal c1.toNat).map (fun h => -(Int.ofNat h)) else none

/-- The pattern compiler `pattern_to_bytes` (process.cpp lines 48-77).  The
source walks the string with index `i`: a `?` pushes `-1`; a space is
skipped; any other character with at least one character following it is
handed to `from_chars` over a two-character window, and on success the parsed
value is pushed and `i` is advanced past both window characters (`++i` in the
body plus the loop increment); on failure, or when the character is the last
one of the string, nothing is pushed and the walk moves one character on. -/
def pattern_to_bytes : List Char → List Int
  | [] => []
  | '?' :: rest => -1 :: pattern_to_bytes rest
  | ' ' :: rest => pattern_to_bytes rest
  | [_] => []
  | c :: c1 :: rest2 =>
    match from_chars2 c c1 with
    | some v => v :: pattern_to_bytes rest2
    | none => pattern_to_bytes (c1 :: rest2)

/-- The inner match loop of `find_pattern` (process.cpp lines 109-117) at
candidate offset `idx`: every compiled slot must equal the image byte or be
the `-1` wildcard.  `B.getD (idx + j) 0` models `module_data[i + j]`; all
reads the theorems rely on are proved (or checked by `matchFromChecked`) to
be inside the buffer. -/
def matchFrom (P : List Int) (B : List Nat) (idx : Nat) : Bool :=
  match P with
  | [] => true
  | p :: ps => ((Int.ofNat (B.getD idx 0) == p) || (p == -1)) && matchFrom ps B (idx + 1)

/-- The outer scan loop of `find_pattern` (process.cpp lines 108-121),
with the number of remaining iterations made explicit: candidate offsets
`i, i + 1, ...` are tried for `fuel` iterations and the first full match is
returned. -/
def scanLoop (P : List Int) (B : List Nat) : Nat → Nat → Option Nat
  | _, 0 => none
  | i, fuel + 1 => if matchFrom P B i then some i else scanLoop P B (i + 1) fuel

/-- 2^64, the modulus of `std::size_t` / `std::uintptr_t` arithmetic. -/
def U64 : Nat := 2 ^ 64

/-- The loop bound `module_size - pattern.size()` of process.cpp line 108:
`module_size` is `uint32_t`, `pattern.size()` is `size_t`, so the usual
arithmetic conversions compute the difference modulo 2^64 — it underflows to
a huge value when the raw pattern string is longer than the image. -/
def scan_bound (module_size raw_len : Nat) : Nat :=
  (module_size + (U64 - raw_len)) % U64

/-- The scan stage of `find_pattern` (process.cpp lines 106-123), taking the
raw pattern string and the image buffer `B` (of length `SizeOfImage`) read
out of the target after the DOS/NT header checks have passed.  The returned
offset is relative to the module base: the source returns
`module_base + i`. -/
def find_pattern_scan (pattern : List Char) (B : List Nat) : Option Nat :=
  scanLoop (pattern_to_bytes pattern) B 0 (scan_bound B.length pattern.length)

/-- Bounds-checked variant of `matchFrom`: identical slot test, but an access
`module_data[idx]` with `idx` outside the buffer is reported as
`Except.error idx` instead of being given a default value. -/
def matchFromChecked (P : List Int) (B : List Nat) (idx : Nat) : Except Nat Bool :=
  match P with
  | [] => .ok true
  | p :: ps =>
    if h : idx < B.length then
      if (Int.ofNat (B.get ⟨idx, h⟩) == p) || (p == -1) then matchFromChecked ps B (idx + 1)
      else .ok false
    else .error idx

/-- Bounds-checked variant of `scanLoop`: propagates the first out-of-bounds
image access performed by the inner loop. -/
def scanLoopChecked (P : List Int) (B : List Nat) : Nat → Nat → Except Nat (Option Nat)
  | _, 0 => .ok none
  | i, fuel + 1 =>
    match matchFromChecked P B i with
    | .error j => .error j
    | .ok true => .ok (some i)
    | .ok false => scanLoopChecked P B (i + 1) fuel

/-- The spec's per-offset match condition (spec §8): at offset `i`, every
compiled slot is the wildcard or equals the image byte under it. -/
def specScanMatch (P : List Int) (B : List Nat) (i : Nat) : Prop :=
  ∀ j, j < P.length → (P.getD j 0 = -1 ∨ Int.ofNat (B.getD (i + j) 0) = P.getD j 0)

instance specScanMatch.decidable (P : List Int) (B : List Nat) (i : Nat) :
    Decidable (specScanMatch P B i) := by
  unfold specScanMatch; infer_instance

/-- The slot a whitespace-delimited token denotes according to the spec's
words (§4.E): a lone `?` is the wildcard `-1`, two hex digits denote the
byte value, and every other token is malformed and denotes no slot. -/
def tokenSlot : List Char → Option Int
  | [c] => if c = '?' then some (-1) else none
  | [c0, c1] =>
    (hexDigitVal c0.toNat).bind fun h0 =>
      (hexDigitVal c1.toNat).map fun h1 => Int.ofNat (16 * h0 + h1)
  | _ => none

/-- Split a character list into maximal space-free tokens (accumulator holds
the current token reversed). -/
def splitTokensAux : List Char → List Char → List (List Char)
  | [], acc => if acc = [] then [] else [acc.reverse]
  | ' ' :: rest, acc =>
    if acc = [] then splitTokensAux rest [] else acc.reverse :: splitTokensAux rest []
  | c :: rest, acc => splitTokensAux rest (c :: acc)

/-- Compilation as the spec's words describe it (§4.E, §9): tokenize on
spaces and keep a slot for each well-formed token only, skipping the
malformed ones.  Stated for comparison with `pattern_to_bytes`, which is the
source's compiler. -/
def specCompile (s : List Char) : List Int :=
  (splitTokensAux s []).filterMap tokenSlot

/-- Rendering of a token list back to a pattern string: each token followed
by a single space. -/
def renderTokens (ts : List (List Char)) : List Char :=
  ts.flatMap (fun t => t ++ [' '])

/-- The session globals of process.cpp lines 12-14: `process_id` (zero until
an attach stores a PID) and `process_handle` (a `SafeHandle` whose null
state is modelled by `0`). -/
structure Session where
  pid : Nat
  handle : Nat
  deriving DecidableEq

/-- The zero-initialized session state at program start. -/
def Session.uninitialized : Session := { pid := 0, handle := 0 }

/-- The body of `attach` (process.cpp lines 34-45) over an environment:
`lookup` is the result of `get_process_id_by_name` and `openProcess` maps a
PID to the handle `OpenProcess` yields (`0` for null).  On a successful
lookup the source first stores the PID, then stores the opened handle, and
only then tests the handle against null. -/
def attach (lookup : Option Nat) (openProcess : Nat → Nat) (s : Session) : Bool × Session :=
  match lookup with
  | none => (false, s)
  | some id =>
    let h := openProcess id
    (h != 0, { pid := id, handle := h })

/-- The loop body of `get_process_id_by_name` (process.cpp lines 26-29):
entries delivered by `Process32Next`, each a pair of `szExeFile` and
`th32ProcessID`; the first byte-exact name match wins. -/
def process_next_loop (name : List Char) : List (List Char × Nat) → Option Nat
  | [] => none
  | (exeFile, pid) :: rest =>
    if exeFile = name then some pid else process_next_loop name rest

/-- `get_process_id_by_name` (process.cpp lines 16-32) over the entry list
of the process snapshot: `Process32First` fills the entry with the head of
the snapshot as the loop's init expression, and the loop guard tests only
results of `Process32Next`, so matching starts at the second entry. -/
def get_process_id_by_name (entries : List (List Char × Nat)) (name : List Char) : Option Nat :=
  match entries with
  | [] => none
  | _ :: rest => process_next_loop name rest

/-- Modelled from the spec: `utility::string::equals_ignore_case` lives in
`utility/string.hpp`, which is not under src/; §4.C describes the module
name comparison as case-insensitive over ASCII. -/
def ascii_lower (c : Char) : Char :=
  if 'A' ≤ c ∧ c ≤ 'Z' then Char.ofNat (c.toNat + 32) else c

/-- Modelled from the spec: case-insensitive ASCII equality used by
`get_module_base_by_name` (process.cpp line 137). -/
def equals_ignore_case (a b : List Char) : Bool :=
  a.map ascii_lower == b.map ascii_lower

/-- The loop body of `get_module_base_by_name` (process.cpp lines 136-139):
entries delivered by `Module32Next`, each a pair of `szModule` and
`modBaseAddr`. -/
def module_next_loop (name : List Char) : List (List Char × Nat) → Option Nat
  | [] => none
  | (moduleName, base) :: rest =>
    if equals_ignore_case moduleName name then some base else module_next_loop name rest

/-- `get_module_base_by_name` (process.cpp lines 126-142) over the module
snapshot's entry list; the `Module32First` result is only the loop init, so
matching starts at the second entry. -/
def get_module_base_by_name (entries : List (List Char × Nat)) (name : List Char) : Option Nat :=
  match entries with
  | [] => none
  | _ :: rest => module_next_loop name rest

/-- `loaded_modules` (process.cpp lines 201-217) over the module snapshot's
entry list (snapshot creation assumed to have succeeded): the names pushed
are exactly those delivered by `Module32Next`. -/
def loaded_modules (entries : List (List Char × Nat)) : List (List Char) :=
  match entries with
  | [] => []
  | _ :: rest => rest.map (·.1)

/-- The name-matching loop of `get_module_export_by_name` (process.cpp lines
178-196): `names` pairs each exported name with its `AddressOfNameOrdinals`
entry, `functionTable` is `AddressOfFunctions`.  On the first name equal to
`target` the function address `module_base + function_table[function_ordinal]`
is computed; if it lies in the closed range
`[module_base + va, module_base + va + size]` the export is treated as
forwarded (the source's TODO) and `none` is returned, otherwise the address
is returned. -/
def export_name_loop (module_base va size : Nat) (functionTable : List Nat)
    (target : List Char) : List (List Char × Nat) → Option Nat
  | [] => none
  | (nm, ordinal) :: rest =>
    if nm ≠ target then export_name_loop module_base va size functionTable target rest
    else
      let fn := module_base + functionTable.getD ordinal 0
      if module_base + va ≤ fn ∧ fn ≤ module_base + va + size then none
      else some fn

/-- The export-resolution core of `get_module_export_by_name` (process.cpp
lines 144-199) after the header reads and signature checks: the data
directory guard of line 162 followed by the name loop. -/
def get_module_export (module_base va size : Nat) (names : List (List Char × Nat))
    (functionTable : List Nat) (target : List Char) : Option Nat :=
  if va = 0 ∨ size = 0 then none
  else export_name_loop module_base va size functionTable target names

/-- `read_string` (process.cpp lines 227-237): `readResult` models the
`read_memory` call filling a buffer of `length` bytes — `none` when
`ReadProcessMemory` fails, `some buf` with the bytes read otherwise.  The
source then finds the first NUL and erases from it to the end. -/
def read_string (readResult : Option (List Nat)) : List Nat :=
  match readResult with
  | none => []
  | some buf =>
    match buf.findIdx? (· == 0) with
    | some i => buf.take i
    | none => buf

/-- Read `n` consecutive bytes at address `a` from a byte-addressed memory
oracle; fails when any byte is unreadable (`ReadProcessMemory` is
all-or-nothing). -/
def read_bytes (mem : Nat → Option Nat) (a : Nat) : Nat → Option (List Nat)
  | 0 => some []
  | n + 1 => (mem a).bind fun b => (read_bytes mem (a + 1) n).map fun bs => b :: bs

/-- Little-endian value of a byte list. -/
def le_value : List Nat → Nat
  | [] => 0
  | b :: bs => b % 256 + 256 * le_value bs

/-- Sign extension of a 32-bit value to a signed integer. -/
def sign_extend_i32 (d : Nat) : Int :=
  if d % 2 ^ 32 < 2 ^ 31 then Int.ofNat (d % 2 ^ 32)
  else Int.ofNat (d % 2 ^ 32) - 2 ^ 32

/-- Modelled from the spec: `resolve_rip_relative_address` is declared in
`process.hpp`, which is not under src/ (main.cpp lines 82, 91 and 105 are
its callers).  Spec §4.E: read the 4-byte signed displacement at `addr + 3`,
return `addr + displacement + 7` (`uintptr_t` arithmetic, modulo 2^64); on
any read failure return `none`. -/
def resolve_rip_relative_address (mem : Nat → Option Nat) (a : Nat) : Option Nat :=
  (read_bytes mem (a + 3) 4).map fun bs =>
    (((Int.ofNat a) + sign_extend_i32 (le_value bs) + 7).emod (Int.ofNat U64)).toNat

/-! ## Pattern compiler lemmas -/

lemma hexDigitVal_isSome_ne (c : Char) (h : (hexDigitVal c.toNat).isSome) :
    c ≠ '?' ∧ c ≠ ' ' := by
  constructor <;> rintro rfl <;> exact absurd h (by decide)

lemma from_chars2_two_digits (c0 c1 : Char) (h0 h1 : Nat)
    (hc0 : hexDigitVal c0.toNat = some h0) (hc1 : hexDigitVal c1.toNat = some h1) :
    from_chars2 c0 c1 = some (Int.ofNat (16 * h0 + h1)) := by
  simp [from_chars2, hc0, hc1]

lemma pattern_to_bytes_question (rest : List Char) :
    pattern_to_bytes ('?' :: rest) = -1 :: pattern_to_bytes rest := by
  simp [pattern_to_bytes]

lemma pattern_to_bytes_space (rest : List Char) :
    pattern_to_bytes (' ' :: rest) = pattern_to_bytes rest := by
  simp [pattern_to_bytes]

lemma pattern_to_bytes_parsed (c0 c1 : Char) (rest : List Char) (v : Int)
    (h0 : c0 ≠ '?') (h1 : c0 ≠ ' ') (hp : from_chars2 c0 c1 = some v) :
    pattern_to_bytes (c0 :: c1 :: rest) = v :: pattern_to_bytes rest := by
  simp [pattern_to_bytes, h0, h1, hp]

lemma pattern_to_bytes_length_le (s : List Char) :
    (pattern_to_bytes s).length ≤ s.length := by
  induction s using pattern_to_bytes.induct <;> simp_all [pattern_to_bytes] <;> omega

/-- C2: the pattern string `"48 8B 0D ? ? ? ? 48 89 7C 24 ?"` compiles to
exactly `[0x48, 0x8B, 0x0D, -1, -1, -1, -1, 0x48, 0x89, 0x7C, 0x24, -1]`,
and in general a pattern rendered from well-formed tokens (a lone `?` per
wildcard, two hex digits per byte) compiles to the denoted slots in input
order: a `?` token yields `-1` and a two-hex-digit token yields its byte
value. -/
theorem c2_pattern_compile :
    pattern_to_bytes ("48 8B 0D ? ? ? ? 48 89 7C 24 ?".toList) =
      [0x48, 0x8B, 0x0D, -1, -1, -1, -1, 0x48, 0x89, 0x7C, 0x24, -1] ∧
    ∀ (ts : List (List Char)) (vs : List Int),
      List.Forall₂ (fun t v => tokenSlot t = some v) ts vs →
      pattern_to_bytes (renderTokens ts) = vs := by
  refine ⟨by decide, ?_⟩
  intro ts vs h
  induction h with
  | nil => simp [renderTokens, pattern_to_bytes]
  | @cons t v ts' vs' ht _ ih =>
    have hrender : renderTokens (t :: ts') = t ++ ' ' :: renderTokens ts' := by
      simp [renderTokens]
    rw [hrender]
    match t with
    | [] => exact absurd ht (by simp [tokenSlot])
    | [c] =>
      by_cases hc : c = '?'
      · subst hc
        have hv : v = -1 := by simpa [tokenSlot] using ht.symm
        subst hv
        simpa [pattern_to_bytes_question, pattern_to_bytes_space] using ih
      · exact absurd ht (by simp [tokenSlot, hc])
    | [c0, c1] =>
      rcases hh0 : hexDigitVal c0.toNat with _ | h0
      · exact absurd ht (by simp [tokenSlot, hh0])
      rcases hh1 : hexDigitVal c1.toNat with _ | h1
      · exact absurd ht (by simp [tokenSlot, hh0, hh1])
      have hv : v = Int.ofNat (16 * h0 + h1) := by
        simpa [tokenSlot, hh0, hh1] using ht.symm
      subst hv
      have hne := hexDigitVal_isSome_ne c0 (by simp [hh0])
      rw [List.cons_append, List.cons_append, List.nil_append,
        pattern_to_bytes_parsed c0 c1 _ _ hne.1 hne.2
          (from_chars2_two_digits c0 c1 h0 h1 hh0 hh1),
        pattern_to_bytes_space]
      simpa using ih
    | c0 :: c1 :: c2 :: t3 => exact absurd ht (by simp [tokenSlot])

/-- Witness for C2 at the token list `["4" "8"] ["?"]` rendered to
`"48 ? "`. -/
theorem c2_pattern_compile_witness :
    pattern_to_bytes (renderTokens [['4', '8'], ['?']]) = [72, -1] :=
  c2_pattern_compile.2 [['4', '8'], ['?']] [72, -1]
    (List.Forall₂.cons (by decide) (List.Forall₂.cons (by decide) List.Forall₂.nil))

/-! ## Snapshot iteration -/

lemma process_next_loop_eq_none (rest : List (List Char × Nat)) (name : List Char)
    (h : ∀ x ∈ rest, x.1 ≠ name) : process_next_loop name rest = none := by
  induction rest with
  | nil => rfl
  | cons x xs ih =>
    have hx : x.1 ≠ name := h x (by simp)
    cases x with
    | mk exeFile pid =>
      simp only [process_next_loop, if_neg hx]
      exact ih (fun y hy => h y (by simp [hy]))

lemma module_next_loop_eq_none (rest : List (List Char × Nat)) (name : List Char)
    (h : ∀ x ∈ rest, equals_ignore_case x.1 name = false) :
    module_next_loop name rest = none := by
  induction rest with
  | nil => rfl
  | cons x xs ih =>
    have hx := h x (by simp)
    cases x with
    | mk moduleName base =>
      simp only [module_next_loop]
      rw [if_neg (by simp_all)]
      exact ih (fun y hy => h y (by simp [hy]))

/-- C3: every snapshot-based lookup treats the `First` call as the loop init
and tests only `Next` results: an entry matching the queried name that
appears only as the first snapshot entry is never returned (first two
conjuncts for the PID and module-base lookups, last conjunct for the module
list of a one-entry snapshot), and no lookup result depends on the first
entry at all (third conjunct). -/
theorem c3_snapshot_skips_first :
    (∀ (e : List Char × Nat) (rest : List (List Char × Nat)) (name : List Char),
      e.1 = name → (∀ x ∈ rest, x.1 ≠ name) →
      get_process_id_by_name (e :: rest) name = none) ∧
    (∀ (e : List Char × Nat) (rest : List (List Char × Nat)) (name : List Char),
      equals_ignore_case e.1 name = true →
      (∀ x ∈ rest, equals_ignore_case x.1 name = false) →
      get_module_base_by_name (e :: rest) name = none) ∧
    (∀ (e₁ e₂ : List Char × Nat) (rest : List (List Char × Nat)) (name : List Char),
      get_process_id_by_name (e₁ :: rest) name = get_process_id_by_name (e₂ :: rest) name ∧
      get_module_base_by_name (e₁ :: rest) name = get_module_base_by_name (e₂ :: rest) name ∧
      loaded_modules (e₁ :: rest) = loaded_modules (e₂ :: rest)) ∧
    (∀ e : List Char × Nat, loaded_modules [e] = []) := by
  refine ⟨?_, ?_, ?_, ?_⟩
  · intro e rest name _ hrest
    exact process_next_loop_eq_none rest name hrest
  · intro e rest name _ hrest
    exact module_next_loop_eq_none rest name hrest
  · intro e₁ e₂ rest name
    exact ⟨rfl, rfl, rfl⟩
  · intro e
    rfl

/-- Witness for C3: a process snapshot whose only entry carries exactly the
queried name still yields no PID. -/
theorem c3_snapshot_skips_first_witness :
    get_process_id_by_name [((['c'], 7) : List Char × Nat)] ['c'] = none :=
  c3_snapshot_skips_first.1 (['c'], 7) [] ['c'] rfl (by simp)

/-! ## Session attachment -/

/-- C4 counterexample: from the uninitialized session, a successful PID
lookup (PID 1234) followed by a failed `OpenProcess` makes `attach` return
`false` with the stored PID already overwritten — the session does not stay
uninitialized on this failure path. -/
theorem c4_counterexample :
    (attach (some 1234) (fun _ => 0) Session.uninitialized).1 = false ∧
    (attach (some 1234) (fun _ => 0) Session.uninitialized).2 ≠ Session.uninitialized := by
  decide

/-- C4 as amended: `attach` leaves the session untouched only on the
missing-PID path; when the PID is found but `OpenProcess` yields null, it
returns `false` having stored the found PID and the null handle; on full
success it returns `true` having stored the PID and the open handle. -/
theorem c4_attach_state (lookup : Option Nat) (openProcess : Nat → Nat) (s : Session) :
    (lookup = none → attach lookup openProcess s = (false, s)) ∧
    (∀ id, lookup = some id → openProcess id = 0 →
      attach lookup openProcess s = (false, { pid := id, handle := 0 })) ∧
    (∀ id, lookup = some id → openProcess id ≠ 0 →
      attach lookup openProcess s = (true, { pid := id, handle := openProcess id })) := by
  refine ⟨?_, ?_, ?_⟩
  · rintro rfl; rfl
  · rintro id rfl hopen
    simp [attach, hopen]
  · rintro id rfl hopen
    simp [attach, hopen]

/-- Witness for C4 (amended): concrete failed-open attach from an already
populated session state. -/
theorem c4_attach_state_witness :
    attach (some 5) (fun _ => 0) { pid := 3, handle := 4 } = (false, { pid := 5, handle := 0 }) :=
  (c4_attach_state (some 5) (fun _ => 0) { pid := 3, handle := 4 }).2.1 5 rfl rfl

/-! ## String reads -/

lemma read_string_cons (b : Nat) (bs : List Nat) :
    read_string (some (b :: bs)) = if b = 0 then [] else b :: read_string (some bs) := by
  by_cases hb : b = 0
  · subst hb
    simp [read_string, List.findIdx?_cons]
  · rcases h : bs.findIdx? (· == 0) with _ | i <;>
      simp [read_string, List.findIdx?_cons, h, hb]

/-- C7: `read_string` returns the empty string whenever the underlying
memory read fails, and otherwise returns the read buffer truncated at its
first NUL byte: the result never contains a NUL, and is either the whole
buffer (no NUL present) or the bytes strictly before the first NUL. -/
theorem c7_read_string :
    read_string none = [] ∧
    ∀ buf : List Nat,
      (¬ 0 ∈ read_string (some buf)) ∧
      (read_string (some buf) = buf ∨
        ∃ rest, buf = read_string (some buf) ++ 0 :: rest) := by
  refine ⟨rfl, ?_⟩
  intro buf
  induction buf with
  | nil => exact ⟨by simp [read_string], Or.inl rfl⟩
  | cons b bs ih =>
    rw [read_string_cons]
    by_cases hb : b = 0
    · subst hb
      simp only [if_pos rfl]
      exact ⟨by simp, Or.inr ⟨bs, by simp⟩⟩
    · simp only [if_neg hb]
      have hb' : ¬ (0 : Nat) = b := fun h => hb h.symm
      refine ⟨by simp [ih.1, hb'], ?_⟩
      rcases ih.2 with h | ⟨rest, hrest⟩
      · exact Or.inl (by rw [h])
      · exact Or.inr ⟨rest, by rw [List.cons_append, ← hrest]⟩

/-- Witness for C7: a concrete buffer with an interior NUL. -/
theorem c7_read_string_witness :
    ¬ (0 : Nat) ∈ read_string (some [72, 0, 5]) :=
  (c7_read_string.2 [72, 0, 5]).1

/-! ## RIP-relative resolution -/

/-- C9: `resolve_rip_relative_address` fails exactly when the 4-byte read at
`addr + 3` fails, otherwise returns `addr + 7 + sign_extend_i32(read4(addr + 3))`
(modulo 2^64); in particular, with little-endian displacement bytes
`10 00 00 00` at offset 3 of address `0x1000` it returns `0x1017`. -/
theorem c9_resolve_rip_relative :
    (∀ (mem : Nat → Option Nat) (a : Nat), read_bytes mem (a + 3) 4 = none →
      resolve_rip_relative_address mem a = none) ∧
    (∀ (mem : Nat → Option Nat) (a : Nat) (bs : List Nat),
      read_bytes mem (a + 3) 4 = some bs →
      resolve_rip_relative_address mem a =
        some ((((Int.ofNat a) + 7 + sign_extend_i32 (le_value bs)).emod (Int.ofNat U64)).toNat)) ∧
    (∀ mem : Nat → Option Nat,
      mem 0x1003 = some 0x10 → mem 0x1004 = some 0 → mem 0x1005 = some 0 →
      mem 0x1006 = some 0 →
      resolve_rip_relative_address mem 0x1000 = some 0x1017) := by
  refine ⟨?_, ?_, ?_⟩
  · intro mem a h
    simp [resolve_rip_relative_address, h]
  · intro mem a bs h
    simp only [resolve_rip_relative_address, h, Option.map]
    rw [add_right_comm]
  · intro mem h3 h4 h5 h6
    have hb : read_bytes mem (0x1000 + 3) 4 = some [0x10, 0, 0, 0] := by
      have e3 : (0x1000 + 3 : Nat) = 0x1003 := by norm_num
      have e4 : (0x1003 + 1 : Nat) = 0x1004 := by norm_num
      have e5 : (0x1004 + 1 : Nat) = 0x1005 := by norm_num
      have e6 : (0x1005 + 1 : Nat) = 0x1006 := by norm_num
      simp [read_bytes, e3, e4, e5, e6, h3, h4, h5, h6]
    simp only [resolve_rip_relative_address, hb]
    decide

/-- Witness for C9 at a concrete memory assignment. -/
theorem c9_resolve_rip_relative_witness :
    resolve_rip_relative_address
      (fun n => if n = 0x1003 then some 0x10 else some 0) 0x1000 = some 0x1017 :=
  c9_resolve_rip_relative.2.2 _ rfl rfl rfl rfl

/-! ## Empty pattern -/

lemma U64_eq : U64 = 18446744073709551616 := by norm_num [U64]

/-- C10 counterexample: on a module whose `SizeOfImage` is zero (the header
checks constrain only the DOS and NT signatures, not the image size), the
empty pattern's scan runs zero iterations and returns `none`, not
`Some(module_base + 0)`. -/
theorem c10_counterexample :
    find_pattern_scan [] [] ≠ some 0 ∧ find_pattern_scan [] [] = none := by
  decide

/-- C10 as amended: for every module image with a nonzero size, the empty
pattern (zero compiled slots) matches vacuously at offset 0, so the scan
returns offset 0 — i.e. `find_pattern` returns `module_base + 0`. -/
theorem c10_empty_pattern (B : List Nat) (hpos : 0 < B.length) (hlt : B.length < U64) :
    find_pattern_scan [] B = some 0 := by
  have hbound : scan_bound B.length ([] : List Char).length = B.length := by
    rw [U64_eq] at hlt
    simp only [scan_bound, List.length_nil, U64_eq]
    omega
  obtain ⟨k, hk⟩ : ∃ k, B.length = k + 1 := ⟨B.length - 1, by omega⟩
  rw [find_pattern_scan, hbound, hk]
  simp [scanLoop, matchFrom, pattern_to_bytes]

/-- Witness for C10 (amended) on a one-byte image. -/
theorem c10_empty_pattern_witness : find_pattern_scan [] [0] = some 0 :=
  c10_empty_pattern [0] (by decide) (by rw [U64_eq]; norm_num)

/-! ## Malformed tokens -/

lemma hexDigitVal_le (n h : Nat) (hh : hexDigitVal n = some h) : h ≤ 15 := by
  unfold hexDigitVal at hh
  split_ifs at hh <;> simp_all <;> omega

lemma from_chars2_range (c0 c1 : Char) (v : Int) (h : from_chars2 c0 c1 = some v) :
    -15 ≤ v ∧ v ≤ 255 := by
  unfold from_chars2 at h
  rcases hh0 : hexDigitVal c0.toNat with _ | h0 <;> rw [hh0] at h
  · split_ifs at h
    · rcases hh1 : hexDigitVal c1.toNat with _ | h1 <;> rw [hh1] at h <;>
        simp only [Option.map] at h
      · exact absurd h (by simp)
      · have hb1 := hexDigitVal_le _ _ hh1
        have hv : v = -(h1 : Int) := by
          have := Option.some.inj h
          simp only [Int.ofNat_eq_natCast] at this
          omega
        subst hv
        constructor <;> omega
  · have hb0 := hexDigitVal_le _ _ hh0
    rcases hh1 : hexDigitVal c1.toNat with _ | h1 <;> rw [hh1] at h
    · have hv : v = (h0 : Int) := by
        have := Option.some.inj h
        simp only [Int.ofNat_eq_natCast] at this
        omega
      subst hv
      constructor <;> omega
    · have hb1 := hexDigitVal_le _ _ hh1
      have hv : v = ((16 * h0 + h1 : Nat) : Int) := by
        have := Option.some.inj h
        simp only [Int.ofNat_eq_natCast] at this
        omega
      subst hv
      constructor <;> push_cast <;> omega

lemma pattern_to_bytes_skip (c0 c1 : Char) (rest : List Char)
    (h0 : c0 ≠ '?') (h1 : c0 ≠ ' ') (hp : from_chars2 c0 c1 = none) :
    pattern_to_bytes (c0 :: c1 :: rest) = pattern_to_bytes (c1 :: rest) := by
  simp [pattern_to_bytes, h0, h1, hp]

/-- C8 counterexample: the input `"4 8"` consists solely of malformed
single-nibble tokens, so per the claim the compiled output should contain no
slots; per the spec-worded compiler it is `[]`, but the source's compiler
emits the slot `[4]` (the `from_chars` window `"4 "` succeeds after one
digit). -/
theorem c8_counterexample :
    specCompile ("4 8".toList) = [] ∧ pattern_to_bytes ("4 8".toList) = [4] := by
  decide

/-- C8 as amended: whitespace is skipped and each `?` contributes `-1`, but
malformed tokens are not all ignored: every other emitted slot is some value
successfully parsed by the two-character `from_chars` window — including a
lone leading hex digit (value 0..255) or a minus sign followed by a digit
(value -15..0) — so every slot lies in `{-1} ∪ [-15, 255]`; only tokens
whose window parse fails, and a trailing single character, contribute
nothing. -/
theorem c8_slots_provenance (s : List Char) (v : Int) (hv : v ∈ pattern_to_bytes s) :
    v = -1 ∨ ∃ c0 c1, from_chars2 c0 c1 = some v ∧ -15 ≤ v ∧ v ≤ 255 := by
  induction s using pattern_to_bytes.induct with
  | case1 => exact absurd hv (by simp [pattern_to_bytes])
  | case2 rest ih =>
    rw [pattern_to_bytes_question] at hv
    rcases List.mem_cons.mp hv with h | h
    · exact Or.inl h
    · exact ih h
  | case3 rest ih =>
    rw [pattern_to_bytes_space] at hv
    exact ih hv
  | case4 c =>
    exact absurd hv (by simp [pattern_to_bytes])
  | case5 c c1 rest2 hc hcq w hw ih =>
    rw [pattern_to_bytes_parsed c c1 rest2 w (fun h => hc h) (fun h => hcq h) hw] at hv
    rcases List.mem_cons.mp hv with h | h
    · subst h
      exact Or.inr ⟨c, c1, hw, from_chars2_range c c1 v hw⟩
    · exact ih h
  | case6 c c1 rest2 hc hcq hw ih =>
    rw [pattern_to_bytes_skip c c1 rest2 (fun h => hc h) (fun h => hcq h) hw] at hv
    exact ih hv

/-- Witness for C8 (amended) at the slot emitted for the malformed input
`"4 8"`. -/
theorem c8_slots_provenance_witness :
    (4 : Int) = -1 ∨ ∃ c0 c1, from_chars2 c0 c1 = some 4 ∧ -15 ≤ (4 : Int) ∧ (4 : Int) ≤ 255 :=
  c8_slots_provenance ("4 8".toList) 4 (by decide)

/-! ## Export resolution -/

/-- C5 counterexample: a matched export whose function address equals
`module_base + VA + Size` exactly — outside the half-open interval
`[module_base+VA, module_base+VA+Size)` of the claim, so the claim requires
the address to be returned — is still treated as forwarded by the source
(its test uses `<=` on both ends) and `none` is returned. -/
theorem c5_counterexample :
    ¬ (0 + 0x1000 ≤ 0 + 0x1100 ∧ 0 + 0x1100 < 0 + 0x1000 + 0x100) ∧
    get_module_export 0 0x1000 0x100 [(['f'], 0)] [0x1100] ['f'] = none := by
  decide

/-- C5 as amended: for the first matched export name, the forwarded-export
test uses the closed interval `[module_base+VA, module_base+VA+Size]`
(inclusive at both ends): inside it `none` is returned, outside it
`module_base + function_rva` is returned. -/
theorem c5_export_interval (module_base va size : Nat) (functionTable : List Nat)
    (target : List Char) (pre rest : List (List Char × Nat)) (ordinal : Nat)
    (hva : va ≠ 0) (hsize : size ≠ 0) (hpre : ∀ e ∈ pre, e.1 ≠ target) :
    get_module_export module_base va size (pre ++ (target, ordinal) :: rest)
        functionTable target =
      if module_base + va ≤ module_base + functionTable.getD ordinal 0 ∧
          module_base + functionTable.getD ordinal 0 ≤ module_base + va + size
      then none
      else some (module_base + functionTable.getD ordinal 0) := by
  have hguard : ¬ (va = 0 ∨ size = 0) := by simp [hva, hsize]
  rw [get_module_export, if_neg hguard]
  induction pre with
  | nil =>
    simp only [List.nil_append, export_name_loop]
    rw [if_neg (by simp)]
  | cons e pre ih =>
    have he : e.1 ≠ target := hpre e (by simp)
    cases e with
    | mk nm ordv =>
      simp only [List.cons_append, export_name_loop]
      rw [if_pos (by simpa using he)]
      exact ih (fun x hx => hpre x (by simp [hx]))

/-- Witness for C5 (amended): a matched symbol outside the export directory
range is returned as `module_base + rva`. -/
theorem c5_export_interval_witness :
    get_module_export 0 16 4 [(['f'], 0)] [100] ['f'] = some 100 := by
  have h := c5_export_interval 0 16 4 [100] ['f'] [] [] 0
    (by decide) (by decide) (by simp)
  simp only [List.nil_append] at h
  rw [h, if_neg (by decide)]
  decide

/-! ## Scan loop characterization -/

lemma specScanMatch_cons (p : Int) (ps : List Int) (B : List Nat) (i : Nat) :
    specScanMatch (p :: ps) B i ↔
      (p = -1 ∨ Int.ofNat (B.getD i 0) = p) ∧ specScanMatch ps B (i + 1) := by
  constructor
  · intro h
    refine ⟨by simpa using h 0 (by simp), ?_⟩
    intro j hj
    have := h (j + 1) (by simpa using Nat.succ_lt_succ hj)
    simpa [show i + (j + 1) = i + 1 + j by omega] using this
  · rintro ⟨h0, hrest⟩ j hj
    cases j with
    | zero => simpa using h0
    | succ j =>
      have := hrest j (by simpa using Nat.lt_of_succ_lt_succ hj)
      simpa [show i + (j + 1) = i + 1 + j by omega] using this

lemma matchFrom_iff (P : List Int) (B : List Nat) (i : Nat) :
    matchFrom P B i = true ↔ specScanMatch P B i := by
  induction P generalizing i with
  | nil =>
    simp [matchFrom, specScanMatch]
  | cons p ps ih =>
    rw [specScanMatch_cons]
    simp only [matchFrom, Bool.and_eq_true, Bool.or_eq_true, beq_iff_eq]
    rw [ih]
    tauto

lemma scanLoop_eq_some_iff (P : List Int) (B : List Nat) (fuel i r : Nat) :
    scanLoop P B i fuel = some r ↔
      (i ≤ r ∧ r < i + fuel ∧ matchFrom P B r = true ∧
        ∀ k, i ≤ k → k < r → matchFrom P B k = false) := by
  induction fuel generalizing i with
  | zero =>
    simp only [scanLoop]
    constructor
    · intro h; exact absurd h (by simp)
    · rintro ⟨h1, h2, -, -⟩; omega
  | succ fuel ih =>
    simp only [scanLoop]
    by_cases hm : matchFrom P B i
    · rw [if_pos hm]
      constructor
      · intro h
        obtain rfl : i = r := Option.some.inj h
        exact ⟨Nat.le_refl i, by omega, hm, fun k hk1 hk2 => absurd hk2 (by omega)⟩
      · rintro ⟨h1, h2, h3, h4⟩
        by_cases hir : r = i
        · rw [hir]
        · have := h4 i (Nat.le_refl i) (by omega)
          rw [hm] at this
          exact absurd this (by simp)
    · rw [if_neg hm]
      rw [ih (i + 1)]
      constructor
      · rintro ⟨h1, h2, h3, h4⟩
        refine ⟨by omega, by omega, h3, ?_⟩
        intro k hk1 hk2
        by_cases hki : k = i
        · subst hki
          exact Bool.not_eq_true _ ▸ (by simpa using hm)
        · exact h4 k (by omega) hk2
      · rintro ⟨h1, h2, h3, h4⟩
        have hir : i ≠ r := by
          rintro rfl
          rw [h3] at hm
          exact hm rfl
        refine ⟨by omega, by omega, h3, fun k hk1 hk2 => h4 k (by omega) hk2⟩

/-- C1 counterexample: for the pattern string `"48"` (compiled pattern
`[0x48]`) and the 5-byte image `[0, 0, 0, 0, 0x48]`, a match exists at
offset 4 = |B| − |P| — so the claim requires `Some(4)` — but the scan's
bound is `|B| − raw_string_length = 3`, the matching offset is never tried,
and the scan returns `none`. -/
theorem c1_counterexample :
    pattern_to_bytes ("48".toList) = [72] ∧
    specScanMatch [72] [0, 0, 0, 0, 72] 4 ∧
    4 ≤ [0, 0, 0, 0, 72].length - ([72] : List Int).length ∧
    find_pattern_scan ("48".toList) [0, 0, 0, 0, 72] = none := by
  refine ⟨by decide, by decide, by decide, ?_⟩
  decide

/-- C1 as amended: for a pattern string `pat` no longer than the image `B`
(so that the unsigned loop bound does not underflow), the scan returns
`some i` iff `i` is below `|B| − |pat|` (the bound uses the raw string
length, not the compiled length), every compiled slot matches at `i` (all
its reads being in bounds), and `i` is the smallest offset at which all
slots match. -/
theorem c1_scan_first_match (pat : List Char) (B : List Nat)
    (hB : B.length < U64) (hlen : pat.length ≤ B.length) (i : Nat) :
    find_pattern_scan pat B = some i ↔
      (i < B.length - pat.length ∧
        i + (pattern_to_bytes pat).length ≤ B.length ∧
        specScanMatch (pattern_to_bytes pat) B i ∧
        ∀ k, k < i → ¬ specScanMatch (pattern_to_bytes pat) B k) := by
  have hbound : scan_bound B.length pat.length = B.length - pat.length := by
    rw [U64_eq] at hB
    simp only [scan_bound, U64_eq]
    omega
  have hplen := pattern_to_bytes_length_le pat
  rw [find_pattern_scan, hbound, scanLoop_eq_some_iff]
  constructor
  · rintro ⟨-, h2, h3, h4⟩
    refine ⟨by omega, by omega, (matchFrom_iff _ _ _).mp h3, ?_⟩
    intro k hk hspec
    have := h4 k (by omega) hk
    rw [(matchFrom_iff _ _ _).mpr hspec] at this
    exact absurd this (by simp)
  · rintro ⟨h1, -, h3, h4⟩
    refine ⟨by omega, by omega, (matchFrom_iff _ _ _).mpr h3, ?_⟩
    intro k hk0 hk
    cases hmk : matchFrom (pattern_to_bytes pat) B k with
    | false => rfl
    | true => exact absurd ((matchFrom_iff _ _ _).mp hmk) (h4 k hk)

/-- Witness for C1 (amended): the spec's scenario-2 pattern `"48 ? C0"` on
an 8-byte image matching at offset 0. -/
theorem c1_scan_first_match_witness :
    find_pattern_scan ("48 ? C0".toList) [72, 199, 192, 1, 0, 0, 0, 0] = some 0 :=
  (c1_scan_first_match ("48 ? C0".toList) [72, 199, 192, 1, 0, 0, 0, 0]
    (by rw [U64_eq]; norm_num) (by decide) 0).mpr
    ⟨by decide, by decide, by decide, fun k hk => absurd hk (Nat.not_lt_zero k)⟩

/-! ## Underflowing scan bound -/

/-- C6: the bound `module_size - pattern.size()` is computed in unsigned
64-bit arithmetic, so for a pattern longer than the image (here the
raw string `"48 8B 0D"`, length 8, compiled to 3 slots, against a 2-byte
image) it underflows to `2^64 - 6` instead of being zero — the loop is
entered, and its very first iteration already dereferences
`module_data[2]`, one past the 2-byte image buffer: the scan does not
return `none`, it reads out of bounds. -/
theorem c6_underflow_out_of_bounds :
    scan_bound 2 ("48 8B 0D".toList).length = U64 - 6 ∧
    U64 - 6 ≠ 0 ∧
    scanLoopChecked (pattern_to_bytes ("48 8B 0D".toList)) [72, 139] 0 (U64 - 6) =
      Except.error 2 := by
  refine ⟨by rw [U64_eq]; decide, by rw [U64_eq]; decide, ?_⟩
  have hP : pattern_to_bytes ("48 8B 0D".toList) = [72, 139, 13] := by decide
  have hm : matchFromChecked [72, 139, 13] [72, 139] 0 = Except.error 2 := by
    simp [matchFromChecked]
  have hfuel : U64 - 6 = (U64 - 7) + 1 := by rw [U64_eq]
  rw [hP, hfuel]
  simp only [scanLoopChecked, hm]
